import Mathlib

/-!
Shallow embedding of `src/ir/item.rs` of rust-bindgen's intermediate
representation: the `Item` graph, ancestor traversal, canonical naming and
paths, derive-trait inference, edge tracing, and the forward-reference
parsing entry point `from_ty_or_ref_with_id`.

Machine state that Rust keeps in interior-mutable cells
(`local_id`, `next_child_local_id`, `canonical_name_cache`) is threaded
explicitly as a `Caches` value.  Loops that walk the item graph
(`ancestors`, `name_target`, `is_toplevel`, the derive queries) are
embedded as fuel-indexed functions returning `Option`; `none` covers both
fuel exhaustion and the fatal-lookup (`resolve_item` panic) paths.
Parts of the repository that are outside `src/` (context lookups, the
type-level derive delegation, clang surface) are modelled from the spec
and marked as such in their doc comments.
-/

/-- Item identifiers: opaque integers, per the spec's data model. -/
abbrev ItemId := Nat

/-- Modelled from the spec: the fragment of a libclang `Type` the embedded
code observes (`is_const`, and the size/alignment that feed the opaque
fallback's layout). -/
structure CType where
  isConst : Bool
  size : Nat
  align : Nat
deriving DecidableEq, Repr

/-- Modelled from the spec: a libclang cursor, carried opaquely through the
embedded code (only stored in placeholder payloads, never inspected). -/
structure Cursor where
  handle : Nat
deriving DecidableEq, Repr

/-- The annotation bag attached to an item (`hide`, `opaque`,
`use_instead_of`). -/
structure Annotations where
  hide : Bool
  opaq : Bool
  useInsteadOf : Option (List String)
deriving DecidableEq, Repr

/-- Default annotations: all flags off. -/
def Annotations.default : Annotations :=
  { hide := false, opaq := false, useInsteadOf := none }

/-- A method of a compound type: we keep the signature item id, which is all
`overload_index` consults. -/
structure Method where
  signature : ItemId
deriving DecidableEq, Repr

/-- A module: optional name, inline flag, children ids. -/
structure ModuleIR where
  name : Option String
  isInline : Bool
  children : List ItemId
deriving DecidableEq, Repr

/-- A function item: name and signature type id. -/
structure FunctionIR where
  name : String
  signature : ItemId
deriving DecidableEq, Repr

/-- A variable item: name and type id. -/
structure VarIR where
  name : String
  ty : ItemId
deriving DecidableEq, Repr

/-- A layout: size and alignment (the fragment the embedded code stores). -/
structure LayoutIR where
  size : Nat
  align : Nat
deriving DecidableEq, Repr

/-- The type-kind variants the embedded code distinguishes.  `Comp` keeps
the constructor-id list and method list used by `overload_index`;
`UnresolvedTypeRef` keeps its payload. -/
inductive TypeKind where
  | Void
  | Comp (constructors : List ItemId) (methods : List Method)
  | Alias (inner : ItemId)
  | TemplateInstantiation (templateDefinition : ItemId)
  | ResolvedTypeRef (inner : ItemId)
  | UnresolvedTypeRef (ty : CType) (location : Cursor) (parentId : Option ItemId)
  | Named
  | Opaque
deriving DecidableEq, Repr

/-- A type: optional name, optional layout, kind, constness. -/
structure TypeIR where
  name : Option String
  layout : Option LayoutIR
  kind : TypeKind
  isConst : Bool
deriving DecidableEq, Repr

/-- The four item kinds. -/
inductive ItemKind where
  | Module (m : ModuleIR)
  | Type (t : TypeIR)
  | Function (f : FunctionIR)
  | Var (v : VarIR)
deriving DecidableEq, Repr

/-- `ItemKind::is_module`. -/
def ItemKind.isModule : ItemKind → Bool
  | .Module _ => true
  | _ => false

/-- An item: id, parent id, comment, annotations, kind.  The interior-mutable
cells of the Rust struct live in `Caches` instead. -/
structure Item where
  id : ItemId
  parentId : ItemId
  comment : Option String
  anns : Annotations
  kind : ItemKind
deriving DecidableEq, Repr

/-- `Item::new` (the cache cells it initialises live in `Caches`). -/
def Item.new (id : ItemId) (comment : Option String)
    (anns : Option Annotations) (parentId : ItemId) (kind : ItemKind) : Item :=
  { id := id, parentId := parentId, comment := comment,
    anns := anns.getD Annotations.default, kind := kind }

/-- The recognized options (spec §6). -/
structure Options where
  enableCxxNamespaces : Bool
  disableNameNamespacing : Bool
  conservativeInlineNamespaces : Bool
  deriveDebug : Bool
  deriveDefault : Bool
deriving DecidableEq, Repr

/-- Modelled from the spec: the `BindgenContext` surface the embedded code
consumes — the item table, root/current module ids, the
`collected_typerefs` flag, the options, and the name-pattern predicates
`hidden_by_name` / `opaque_by_name` and `rust_mangle` (kept as abstract
functions, since their implementations live outside `src/`). -/
structure Ctx where
  items : List Item
  rootModule : ItemId
  currentModule : ItemId
  collectedTyperefs : Bool
  options : Options
  hiddenByName : List String → ItemId → Bool
  opaqueByName : List String → Bool
  rustMangle : String → String

/-- Modelled from the spec: `resolve_item_fallible` — lookup returning
absent when the id is unknown. -/
def Ctx.resolveItemFallible (ctx : Ctx) (id : ItemId) : Option Item :=
  ctx.items.find? (fun it => it.id == id)

/-- Modelled from the spec: `resolve_item` — the infallible lookup; its
panic on an unknown id is modelled as `none`, which aborts the enclosing
computation. -/
def Ctx.resolveItem (ctx : Ctx) (id : ItemId) : Option Item :=
  ctx.resolveItemFallible id

/-- Modelled from the spec: `add_item` — insert into the item table (ids are
unique, so prepending makes the new item visible to lookups). -/
def Ctx.addItem (ctx : Ctx) (it : Item) : Ctx :=
  { ctx with items := it :: ctx.items }

/-- The interior-mutable cells of all items, threaded explicitly:
`local_id` assignments, each item's `next_child_local_id` counter
(absent means the initial value 1), and `canonical_name_cache`. -/
structure Caches where
  localIds : List (ItemId × Nat)
  nextChild : List (ItemId × Nat)
  nameCache : List (ItemId × String)
deriving DecidableEq, Repr

/-- The empty cache state (all cells at their `Item::new` values). -/
def Caches.init : Caches :=
  { localIds := [], nextChild := [], nameCache := [] }

/-- Read an item's `next_child_local_id` cell (initially 1). -/
def Caches.nextChildOf (st : Caches) (id : ItemId) : Nat :=
  (st.nextChild.lookup id).getD 1

/-- `Item::local_id`: lazily assign the parent's next child-local id. -/
def localIdF (ctx : Ctx) (st : Caches) (item : Item) : Option (Nat × Caches) :=
  match st.localIds.lookup item.id with
  | some n => some (n, st)
  | none => do
    let parent ← ctx.resolveItem item.parentId
    let n := st.nextChildOf parent.id
    some (n, { st with
      localIds := (item.id, n) :: st.localIds,
      nextChild := (parent.id, n + 1) :: st.nextChild })

/-- `Item::exposed_id`: local id for Comp/Enum types, `id_<global>`
otherwise.  (The embedded `TypeKind` has no separate `Enum` variant; `Comp`
covers the record-like case the claims exercise.) -/
def exposedIdF (ctx : Ctx) (st : Caches) (item : Item) : Option (String × Caches) :=
  match item.kind with
  | .Type t =>
    match t.kind with
    | .Comp _ _ => do
      let (n, st') ← localIdF ctx st item
      some (toString n, st')
    | _ => some ("id_" ++ toString item.id, st)
  | _ => some ("id_" ++ toString item.id, st)

/-- `ItemAncestorsIter` unrolled into a fuel-indexed list: resolve the
current id (a missing id is the `resolve_item` panic, hence `none`), stop
with `[]` at the parent fixpoint, otherwise emit the item's id and walk to
the parent. -/
def ancestorsFuel (ctx : Ctx) : Nat → ItemId → Option (List ItemId)
  | 0, _ => none
  | n + 1, cur => do
    let item ← ctx.resolveItem cur
    if item.parentId = cur then
      some []
    else do
      let rest ← ancestorsFuel ctx n item.parentId
      some (item.id :: rest)

/-- The spec's wording of the ancestor walk (claim C8): the walk uses
`resolve_item_fallible` and a dangling parent ends the sequence rather
than aborting. -/
def ancestorsClaimFuel (ctx : Ctx) : Nat → ItemId → Option (List ItemId)
  | 0, _ => none
  | n + 1, cur =>
    match ctx.resolveItemFallible cur with
    | none => some []
    | some item =>
      if item.parentId = cur then
        some []
      else do
        let rest ← ancestorsClaimFuel ctx n item.parentId
        some (item.id :: rest)

/-- The loop body of `Item::name_target`: `self` is the item the walk was
started from (the source checks `self.annotations()` on every iteration),
`item` is the current position. -/
def nameTargetFuel (ctx : Ctx) (self : Item) : Nat → Item → Option ItemId
  | 0, _ => none
  | n + 1, item =>
    if self.anns.useInsteadOf.isSome then
      some self.id
    else
      match item.kind with
      | .Type ty =>
        match ty.kind with
        | .ResolvedTypeRef inner => do
          let it ← ctx.resolveItem inner
          nameTargetFuel ctx self n it
        | .TemplateInstantiation tdef => do
          let it ← ctx.resolveItem tdef
          nameTargetFuel ctx self n it
        | _ => some item.id
      | _ => some item.id

/-- `Item::name_target`. -/
def nameTarget (ctx : Ctx) (fuel : Nat) (item : Item) : Option ItemId :=
  nameTargetFuel ctx item fuel item

/-- The pure alias chase (no annotation check): follows `ResolvedTypeRef`
and `TemplateInstantiation` links to the first non-alias item.  Used to
state what `name_target` actually computes. -/
def followAliases (ctx : Ctx) : Nat → Item → Option ItemId
  | 0, _ => none
  | n + 1, item =>
    match item.kind with
    | .Type ty =>
      match ty.kind with
      | .ResolvedTypeRef inner => do
        let it ← ctx.resolveItem inner
        followAliases ctx n it
      | .TemplateInstantiation tdef => do
        let it ← ctx.resolveItem tdef
        followAliases ctx n it
      | _ => some item.id
    | _ => some item.id

/-- `Item::func_name`. -/
def funcName (item : Item) : Option String :=
  match item.kind with
  | .Function f => some f.name
  | _ => none

/-- The name of the function item behind an id (used by `overload_index`'s
method filter; `expect_function`'s panic on a non-function is modelled as
`none`). -/
def funcNameOfId (ctx : Ctx) (id : ItemId) : Option String := do
  let it ← ctx.resolveItem id
  funcName it

/-- `Item::overload_index`: position of this function among its enclosing
record's constructors, or else among the same-named methods.  A failing
`resolve_item` (a panic in Rust) is conflated with the legitimate `None`
answer here; the claims only exercise well-formed contexts. -/
def overloadIndex (ctx : Ctx) (item : Item) : Option Nat :=
  (funcName item).bind (fun fname =>
    match ctx.resolveItem item.parentId with
    | none => none
    | some parent =>
      match parent.kind with
      | .Type ty =>
        match ty.kind with
        | .Comp constructors methods =>
          (constructors.indexOf? item.id).orElse (fun _ =>
            (methods.filter (fun m => funcNameOfId ctx m.signature == some fname)).findIdx?
              (fun m => m.signature == item.id))
        | _ => none
      | _ => none)

/-- `Item::base_name`. -/
def baseNameF (ctx : Ctx) (st : Caches) (item : Item) : Option (String × Caches) :=
  match item.anns.useInsteadOf with
  | some path => do
    let lastName ← path.getLast?
    some (lastName, st)
  | none =>
    match item.kind with
    | .Var v => some (v.name, st)
    | .Module m =>
      match m.name with
      | some name => some (name, st)
      | none => do
        let (e, st') ← exposedIdF ctx st item
        some ("_bindgen_mod_" ++ e, st')
    | .Type ty =>
      match ty.kind with
      | .ResolvedTypeRef _ => none
      | _ =>
        match ty.name with
        | some name => some (name, st)
        | none => do
          let (e, st') ← exposedIdF ctx st item
          some ("_bindgen_ty_" ++ e, st')
    | .Function f =>
      match overloadIndex ctx item with
      | some idx =>
        if idx > 0 then some (f.name ++ toString idx, st) else some (f.name, st)
      | none => some (f.name, st)

/-- Modelled from the spec: `as_named` — whether the item is a Named type
(a template type parameter); `Type::as_named` lives in `ty.rs`, outside the
sources. -/
def isNamed (item : Item) : Bool :=
  match item.kind with
  | .Type t =>
    match t.kind with
    | .Named => true
    | _ => false
  | _ => false

/-- The `filter`/`take_while`/`map`/`filter` pipeline over the ancestor ids
inside `real_canonical_name`: skip the root, stop at the first module when
`within_namespaces` is set, map each remaining id to its `name_target`'s
base name, and drop empty names.  State is threaded left to right in the
order the Rust iterator consumes elements. -/
def ancestorNames (ctx : Ctx) (fuel : Nat) (withinNs : Bool) :
    Caches → List ItemId → Option (List String × Caches)
  | st, [] => some ([], st)
  | st, id :: rest =>
    if id = ctx.rootModule then
      ancestorNames ctx fuel withinNs st rest
    else do
      let item ← ctx.resolveItem id
      if withinNs && item.kind.isModule then
        some ([], st)
      else do
        let tid ← nameTarget ctx fuel item
        let tgt ← ctx.resolveItem tid
        let (nm, st') ← baseNameF ctx st tgt
        let (names, st'') ← ancestorNames ctx fuel withinNs st' rest
        some ((if nm.isEmpty then names else nm :: names), st'')

/-- `Item::real_canonical_name` (with `opt.within_namespaces` as the `withinNs`
flag). -/
def realCanonicalName (ctx : Ctx) (fuel : Nat) (withinNs : Bool) (st : Caches)
    (self : Item) : Option (String × Caches) := do
  let tid ← nameTarget ctx fuel self
  let target ← ctx.resolveItem tid
  match target.anns.useInsteadOf with
  | some path => do
    let lastName ← path.getLast?
    if ctx.options.enableCxxNamespaces then
      some (lastName, st)
    else
      some (String.intercalate "_" path, st)
  | none => do
    let (base, st1) ← baseNameF ctx st target
    if isNamed target then
      some (base, st1)
    else do
      let ancs ← ancestorsFuel ctx fuel target.parentId
      let (names, st2) ← ancestorNames ctx fuel withinNs st1 ancs
      let names := names.reverse
      let names := if base.isEmpty then names else names ++ [base]
      some (ctx.rustMangle (String.intercalate "_" names), st2)

/-- The name step of `canonical_path`'s final `map`: resolve the item's
`name_target` and take its within-namespaces canonical name
(`item.name(ctx).within_namespaces().get()`), for each element in order. -/
def mapPathNames (ctx : Ctx) (fuel : Nat) :
    Caches → List Item → Option (List String × Caches)
  | st, [] => some ([], st)
  | st, it :: rest => do
    let tid ← nameTarget ctx fuel it
    let tgt ← ctx.resolveItem tid
    let (nm, st1) ← realCanonicalName ctx fuel true st tgt
    let (names, st2) ← mapPathNames ctx fuel st1 rest
    some (nm :: names, st2)

/-- `Item::canonical_path`. -/
def canonicalPathF (ctx : Ctx) (fuel : Nat) (st : Caches) (item : Item) :
    Option (List String × Caches) :=
  match item.anns.useInsteadOf with
  | some path => do
    let root ← ctx.resolveItem ctx.rootModule
    let (rootName, st1) ← realCanonicalName ctx fuel false st root
    some (rootName :: path, st1)
  | none => do
    let tid ← nameTarget ctx fuel item
    let target ← ctx.resolveItem tid
    let ancs ← ancestorsFuel ctx fuel target.id
    let chain := ancs ++ [ctx.rootModule]
    let chainItems ← chain.mapM (fun i => ctx.resolveItem i)
    let kept := chainItems.filter (fun it =>
      it.id == target.id ||
      (match it.kind with
       | .Module m => !m.isInline || ctx.options.conservativeInlineNamespaces
       | _ => false))
    let (names, st1) ← mapPathNames ctx fuel st kept
    some (names.reverse, st1)

/-- The claim's wording of `canonical_path` (claim C6): same pipeline but
the only elements removed from the ancestor chain are inline namespaces
when `conservative_inline_namespaces` is disabled. -/
def canonicalPathClaim (ctx : Ctx) (fuel : Nat) (st : Caches) (item : Item) :
    Option (List String × Caches) :=
  match item.anns.useInsteadOf with
  | some path => do
    let root ← ctx.resolveItem ctx.rootModule
    let (rootName, st1) ← realCanonicalName ctx fuel false st root
    some (rootName :: path, st1)
  | none => do
    let tid ← nameTarget ctx fuel item
    let target ← ctx.resolveItem tid
    let ancs ← ancestorsFuel ctx fuel target.id
    let chain := ancs ++ [ctx.rootModule]
    let chainItems ← chain.mapM (fun i => ctx.resolveItem i)
    let kept := chainItems.filter (fun it =>
      match it.kind with
      | .Module m => !m.isInline || ctx.options.conservativeInlineNamespaces
      | _ => true)
    let (names, st1) ← mapPathNames ctx fuel st kept
    some (names.reverse, st1)

/-- `Item::canonical_name`: return the cached value if present, else compute
(within namespaces when `enable_cxx_namespaces` or
`disable_name_namespacing` is set) and store it. -/
def canonicalNameF (ctx : Ctx) (fuel : Nat) (st : Caches) (item : Item) :
    Option (String × Caches) :=
  match st.nameCache.lookup item.id with
  | some s => some (s, st)
  | none => do
    let inNamespace := ctx.options.enableCxxNamespaces ||
                       ctx.options.disableNameNamespacing
    let (s, st1) ← realCanonicalName ctx fuel inNamespace st item
    some (s, { st1 with nameCache := (item.id, s) :: st1.nameCache })

/-- `Item::is_hidden`. -/
def isHiddenF (ctx : Ctx) (fuel : Nat) (st : Caches) (item : Item) :
    Option (Bool × Caches) :=
  if item.anns.hide then
    some (true, st)
  else do
    let (path, st1) ← canonicalPathF ctx fuel st item
    some (ctx.hiddenByName path item.id, st1)

/-- `Type::is_opaque`, modelled from the spec (it lives in `ty.rs`): a type
is opaque when its kind is the Opaque blob. -/
def tyIsOpaque (t : TypeIR) : Bool :=
  match t.kind with
  | .Opaque => true
  | _ => false

/-- `Item::is_opaque`: annotation, type kind, or the name-pattern policy
over the canonical path (short-circuiting left to right as `||` does). -/
def isOpaqueF (ctx : Ctx) (fuel : Nat) (st : Caches) (item : Item) :
    Option (Bool × Caches) :=
  if item.anns.opaq then
    some (true, st)
  else if (match item.kind with | .Type t => tyIsOpaque t | _ => false) then
    some (true, st)
  else do
    let (path, st1) ← canonicalPathF ctx fuel st item
    some (ctx.opaqueByName path, st1)

/-- The parent-chain loop of `Item::is_toplevel`. -/
def isToplevelLoop (ctx : Ctx) : Nat → ItemId → Option Bool
  | 0, _ => none
  | n + 1, parent =>
    match ctx.resolveItemFallible parent with
    | none => some false
    | some pit =>
      if pit.id = ctx.rootModule then
        some true
      else if ctx.options.enableCxxNamespaces || !pit.kind.isModule then
        some false
      else
        isToplevelLoop ctx n pit.parentId

/-- `Item::is_toplevel`. -/
def isToplevelF (ctx : Ctx) (fuel : Nat) (item : Item) : Option Bool :=
  if ctx.options.enableCxxNamespaces && item.kind.isModule &&
     item.id != ctx.rootModule then
    some false
  else
    isToplevelLoop ctx fuel item.parentId

/-- Edge kinds observed by the embedded `Trace` impl: `tracer.visit` emits a
generic edge, `visit_kind` a typed one (only `VarType` is used in
`item.rs`; the trace of a `Type`'s structural edges is delegated). -/
inductive EdgeKind where
  | Generic
  | VarType
deriving DecidableEq, Repr

/-- Modelled from the spec: `Type::should_be_traced_unconditionally` (in
`ty.rs`) — resolved type references must still produce their edge even when
the item is opaque. -/
def shouldBeTracedUnconditionally (t : TypeIR) : Bool :=
  match t.kind with
  | .ResolvedTypeRef _ => true
  | _ => false

/-- `Trace for Item`, with the tracer modelled as the list of visited edges
and the type-level trace (in `ty.rs`, outside the sources) passed in as
`tyTrace`.  Hidden items trace nothing; a type traces unless it is opaque
(resolved references unconditionally); a function visits its signature; a
variable visits its type with the `VarType` kind; a module visits
nothing. -/
def traceItemF (ctx : Ctx) (tyTrace : Ctx → TypeIR → Item → List (ItemId × EdgeKind))
    (fuel : Nat) (st : Caches) (item : Item) :
    Option (List (ItemId × EdgeKind) × Caches) := do
  let (hidden, st1) ← isHiddenF ctx fuel st item
  if hidden then
    some ([], st1)
  else
    match item.kind with
    | .Type ty =>
      if shouldBeTracedUnconditionally ty then
        some (tyTrace ctx ty item, st1)
      else do
        let (opq, st2) ← isOpaqueF ctx fuel st1 item
        if opq then some ([], st2) else some (tyTrace ctx ty item, st2)
    | .Function f => some ([(f.signature, EdgeKind.Generic)], st1)
    | .Var v => some ([(v.ty, EdgeKind.VarType)], st1)
    | .Module _ => some ([], st1)

/-- `CanDeriveDebug for Item`, with the per-item `detect_derive_debug_cycle`
cells modelled as the set `flags` of items whose flag is currently set (the
flag is set for the duration of the recursive computation and reset before
returning, which is exactly a parameter passed down).  The type-level
delegation is modelled from the spec (`ty.rs` is outside the sources): a
typedef alias or resolved reference delegates to the referenced item, and
the remaining kinds are treated as derivable; `layoutDebug` stands for
`Layout::opaque().can_derive_debug`. -/
def canDeriveDebugI (ctx : Ctx) (layoutDebug : LayoutIR → Bool) :
    Nat → Caches → List ItemId → ItemId → Option (Bool × Caches)
  | 0, _, _, _ => none
  | n + 1, st, flags, id => do
    let item ← ctx.resolveItem id
    if flags.contains id then
      some (true, st)
    else if !ctx.options.deriveDebug then
      some (false, st)
    else
      match item.kind with
      | .Type ty => do
        let (opq, st1) ← isOpaqueF ctx n st item
        if opq then
          some ((match ty.layout with
                 | some l => layoutDebug l
                 | none => true), st1)
        else
          match ty.kind with
          | .Alias inner => canDeriveDebugI ctx layoutDebug n st1 (id :: flags) inner
          | .ResolvedTypeRef inner =>
            canDeriveDebugI ctx layoutDebug n st1 (id :: flags) inner
          | _ => some (true, st1)
      | _ => some (false, st)

/-- `CanDeriveDefault for Item`: same structure as the Debug query except
that, exactly as in the source, there is no re-entrance flag to consult or
set — the `Item` struct only has `detect_derive_debug_cycle` and
`detect_derive_copy_cycle` cells — and an opaque item without a layout is
not derivable (`map_or(false, ...)`).  The type-level delegation is
modelled from the spec as for Debug; `layoutDefault` stands for
`Layout::opaque().can_derive_default`. -/
def canDeriveDefaultI (ctx : Ctx) (layoutDefault : LayoutIR → Bool) :
    Nat → Caches → ItemId → Option (Bool × Caches)
  | 0, _, _ => none
  | n + 1, st, id => do
    let item ← ctx.resolveItem id
    if !ctx.options.deriveDefault then
      some (false, st)
    else
      match item.kind with
      | .Type ty => do
        let (opq, st1) ← isOpaqueF ctx n st item
        if opq then
          some ((match ty.layout with
                 | some l => layoutDefault l
                 | none => false), st1)
        else
          match ty.kind with
          | .Alias inner => canDeriveDefaultI ctx layoutDefault n st1 inner
          | .ResolvedTypeRef inner => canDeriveDefaultI ctx layoutDefault n st1 inner
          | _ => some (true, st1)
      | _ => some (false, st)

/-- The parser's error channel. -/
inductive ParseError where
  | Recurse
  | Continue
deriving DecidableEq, Repr

/-- The parsing collaborators `from_ty_or_ref_with_id` calls into, passed as
abstract functions: `Item::from_ty_with_id` (its body depends on the whole
clang surface and the `ty.rs` decoder) and the context's
`builtin_or_resolved_ty` (outside the sources; it may add wrapper items, so
it returns an updated context). -/
structure ParseHooks where
  fromTyWithId : ItemId → CType → Cursor → Option ItemId → Ctx →
    Except ParseError (ItemId × Ctx)
  builtinOrResolvedTy : ItemId → Option ItemId → CType → Option Cursor → Ctx →
    Option (ItemId × Ctx)

/-- Modelled from the spec: `Opaque::from_clang_ty` (in `layout.rs`) — an
ABI-only blob type carrying the clang type's size and alignment. -/
def opaqueFromClangTy (ty : CType) : TypeIR :=
  { name := none, layout := some { size := ty.size, align := ty.align },
    kind := .Opaque, isConst := false }

/-- `Item::new_opaque_type`: add an opaque type item under the supplied id,
parented to the root module, and return that id. -/
def newOpaqueType (withId : ItemId) (ty : CType) (ctx : Ctx) : ItemId × Ctx :=
  let kind := ItemKind.Type (opaqueFromClangTy ty)
  let parent := ctx.rootModule
  (withId, ctx.addItem (Item.new withId none none parent kind))

/-- `Item::from_ty_or_ref_with_id`: once typerefs are collected, parse fully
with the opaque fallback; while collection is open, try
`builtin_or_resolved_ty` and otherwise add an `UnresolvedTypeRef`
placeholder under the supplied id. -/
def fromTyOrRefWithId (hooks : ParseHooks) (potentialId : ItemId) (ty : CType)
    (location : Cursor) (parentId : Option ItemId) (ctx : Ctx) : ItemId × Ctx :=
  if ctx.collectedTyperefs then
    match hooks.fromTyWithId potentialId ty location parentId ctx with
    | .ok r => r
    | .error _ => newOpaqueType potentialId ty ctx
  else
    match hooks.builtinOrResolvedTy potentialId parentId ty (some location) ctx with
    | some r => r
    | none =>
      let isConst := ty.isConst
      let kind := TypeKind.UnresolvedTypeRef ty location parentId
      let item := Item.new potentialId none none (parentId.getD ctx.currentModule)
        (ItemKind.Type { name := none, layout := none, kind := kind,
                         isConst := isConst })
      (potentialId, ctx.addItem item)

/-- Whether an item's kind contains an `UnresolvedTypeRef`. -/
def Item.isUnresolvedTypeRef (it : Item) : Bool :=
  match it.kind with
  | .Type t =>
    match t.kind with
    | .UnresolvedTypeRef _ _ _ => true
    | _ => false
  | _ => false

/-- Options with every flag off. -/
def optsNone : Options :=
  { enableCxxNamespaces := false, disableNameNamespacing := false,
    conservativeInlineNamespaces := false, deriveDebug := false,
    deriveDefault := false }

/-- A context over a concrete item table: root and current module are item
0, typerefs not yet collected, no name-pattern policies, identity
mangling. -/
def mkCtx (items : List Item) (opts : Options) : Ctx :=
  { items := items, rootModule := 0, currentModule := 0,
    collectedTyperefs := false, options := opts,
    hiddenByName := fun _ _ => false, opaqueByName := fun _ => false,
    rustMangle := fun s => s }

/-- The root module item (named `root`, its own parent). -/
def rootItem : Item :=
  { id := 0, parentId := 0, comment := none, anns := Annotations.default,
    kind := .Module { name := some "root", isInline := false, children := [1] } }

/-- A named compound type item with no members. -/
def compItem (id parent : ItemId) (name : String) : Item :=
  { id := id, parentId := parent, comment := none, anns := Annotations.default,
    kind := .Type { name := some name, layout := none,
                    kind := .Comp [] [], isConst := false } }

/-- A named typedef-alias type item. -/
def aliasItem (id parent inner : ItemId) (name : String) : Item :=
  { id := id, parentId := parent, comment := none, anns := Annotations.default,
    kind := .Type { name := some name, layout := none,
                    kind := .Alias inner, isConst := false } }

/-- A resolved-type-reference item, optionally annotated. -/
def refItem (id parent inner : ItemId) (anns : Annotations) : Item :=
  { id := id, parentId := parent, comment := none, anns := anns,
    kind := .Type { name := none, layout := none,
                    kind := .ResolvedTypeRef inner, isConst := false } }

/-- A function item. -/
def funItem (id parent : ItemId) (name : String) (sig : ItemId) : Item :=
  { id := id, parentId := parent, comment := none, anns := Annotations.default,
    kind := .Function { name := name, signature := sig } }

/-- A variable item. -/
def varItem (id parent : ItemId) (name : String) (tyId : ItemId) : Item :=
  { id := id, parentId := parent, comment := none, anns := Annotations.default,
    kind := .Var { name := name, ty := tyId } }

/-- A namespace module item. -/
def nsItem (id parent : ItemId) (name : String) (inl : Bool) : Item :=
  { id := id, parentId := parent, comment := none, anns := Annotations.default,
    kind := .Module { name := some name, isInline := inl, children := [] } }

/-- C2's cyclic type graph: two typedef aliases referring to each other,
with both derive options on. -/
def ctxCyc : Ctx :=
  mkCtx [rootItem, aliasItem 1 0 2 "A", aliasItem 2 0 1 "B"]
    { optsNone with deriveDebug := true, deriveDefault := true }

/-- C3's alias chain: item 1 is a plain resolved reference to item 2, which
carries a `use_instead_of` annotation and refers on to the compound item
3. -/
def ctxAnnChain : Ctx :=
  mkCtx
    [rootItem,
     refItem 1 0 2 Annotations.default,
     refItem 2 0 3 { Annotations.default with useInsteadOf := some ["X"] },
     compItem 3 0 "C"]
    optsNone

/-- C4's namespaced graph: a variable inside a namespace module under the
root, with namespaces enabled. -/
def ctxNsEnabled : Ctx :=
  mkCtx [rootItem, nsItem 1 0 "foo" false, varItem 2 1 "v" 0]
    { optsNone with enableCxxNamespaces := true }

/-- C6's nested-type graph: `Bar` nested inside `Foo` under the root. -/
def ctxNest : Ctx :=
  mkCtx [rootItem, compItem 1 0 "Foo", compItem 2 1 "Bar"] optsNone

/-- C8's dangling-parent graph: item 1's parent id 2 resolves to nothing. -/
def ctxDangling : Ctx :=
  mkCtx [rootItem, compItem 1 2 "X"] optsNone

/-- C9's overload graph: a record with two constructors and two same-named
methods, mirroring `struct C { void m(); void m(int); C(); C(int); };`. -/
def ctxOverload : Ctx :=
  mkCtx
    [rootItem,
     { id := 1, parentId := 0, comment := none, anns := Annotations.default,
       kind := .Type { name := some "C", layout := none,
                       kind := .Comp [4, 5] [⟨2⟩, ⟨3⟩], isConst := false } },
     funItem 2 1 "m" 2,
     funItem 3 1 "m" 3,
     funItem 4 1 "C" 4,
     funItem 5 1 "C" 5]
    optsNone

/-- The survival rule `canonical_path` actually applies to the ancestor
chain: the target itself always survives; a module survives unless it is an
inline namespace and `conservative_inline_namespaces` is off; every other
ancestor is removed. -/
def keptInPath (ctx : Ctx) (targetId : ItemId) (it : Item) : Bool :=
  match it.kind with
  | .Module m => it.id == targetId || !m.isInline || ctx.options.conservativeInlineNamespaces
  | _ => it.id == targetId

/-- Filtering and naming the ancestor chain in one pass, with the survival
rule `keptInPath`: used to state the amended description of
`canonical_path`. -/
def filterPathNames (ctx : Ctx) (fuel : Nat) (targetId : ItemId) :
    Caches → List Item → Option (List String × Caches)
  | st, [] => some ([], st)
  | st, it :: rest =>
    if keptInPath ctx targetId it then do
      let tid ← nameTarget ctx fuel it
      let tgt ← ctx.resolveItem tid
      let (nm, st1) ← realCanonicalName ctx fuel true st tgt
      let (names, st2) ← filterPathNames ctx fuel targetId st1 rest
      some (nm :: names, st2)
    else
      filterPathNames ctx fuel targetId st rest

/-- The amended description of `canonical_path`: for `use_instead_of(p)`,
the root's name followed by `p`; otherwise the reversed chain of surviving
ancestors (per `keptInPath`) mapped to their `name_target`'s
within-namespaces canonical names. -/
def canonicalPathAmended (ctx : Ctx) (fuel : Nat) (st : Caches) (item : Item) :
    Option (List String × Caches) :=
  match item.anns.useInsteadOf with
  | some path => do
    let root ← ctx.resolveItem ctx.rootModule
    let (rootName, st1) ← realCanonicalName ctx fuel false st root
    some (rootName :: path, st1)
  | none => do
    let tid ← nameTarget ctx fuel item
    let target ← ctx.resolveItem tid
    let ancs ← ancestorsFuel ctx fuel target.id
    let chainItems ← (ancs ++ [ctx.rootModule]).mapM (fun i => ctx.resolveItem i)
    let (names, st1) ← filterPathNames ctx fuel target.id st chainItems
    some (names.reverse, st1)

/-- Reachability of the root along the parent chain crossing only modules:
the operational meaning of `is_toplevel`'s walk when namespaces are
disabled. -/
inductive ReachesRootViaModules (ctx : Ctx) : ItemId → Prop where
  | atRoot : ∀ p pit, ctx.resolveItemFallible p = some pit →
      pit.id = ctx.rootModule → ReachesRootViaModules ctx p
  | step : ∀ p pit, ctx.resolveItemFallible p = some pit →
      pit.id ≠ ctx.rootModule → pit.kind.isModule = true →
      ReachesRootViaModules ctx pit.parentId → ReachesRootViaModules ctx p

/-- A type-level trace oracle that contributes no structural edges (enough
for tracing non-type items). -/
def emptyTyTrace : Ctx → TypeIR → Item → List (ItemId × EdgeKind) :=
  fun _ _ _ => []

/-- Parse hooks whose full parse always fails and whose
`builtin_or_resolved_ty` never hits: the last-resort path of
`from_ty_or_ref_with_id`. -/
def failingHooks : ParseHooks :=
  { fromTyWithId := fun _ _ _ _ _ => .error ParseError.Continue,
    builtinOrResolvedTy := fun _ _ _ _ _ => none }

/-- A context that has finished collecting typerefs. -/
def ctxCollected : Ctx :=
  { mkCtx [rootItem] optsNone with collectedTyperefs := true }

/-- A sample clang type and location cursor. -/
def cty0 : CType := { isConst := false, size := 4, align := 4 }

/-- A sample cursor. -/
def cur0 : Cursor := { handle := 11 }

/-- An item found by `resolve_item_fallible` satisfies the lookup predicate:
its stored id is the id it was looked up under. -/
theorem resolveItemFallible_id {ctx : Ctx} {i : ItemId} {it : Item}
    (h : ctx.resolveItemFallible i = some it) : it.id = i := by
  have := List.find?_some h
  simpa using this

/-- An item found by `resolve_item_fallible` is in the item table. -/
theorem resolveItemFallible_mem {ctx : Ctx} {i : ItemId} {it : Item}
    (h : ctx.resolveItemFallible i = some it) : it ∈ ctx.items :=
  List.mem_of_find?_eq_some h

/-- A successful ancestor walk is stable under extra fuel. -/
theorem ancestorsFuel_mono (ctx : Ctx) :
    ∀ n m i l, n ≤ m → ancestorsFuel ctx n i = some l →
      ancestorsFuel ctx m i = some l := by
  intro n
  induction n with
  | zero => intro m i l _ h; cases h
  | succ n ih =>
    intro m i l hnm h
    obtain ⟨m', rfl⟩ : ∃ m', m = m' + 1 := ⟨m - 1, by omega⟩
    cases hr : ctx.resolveItem i with
    | none => simp [ancestorsFuel, hr] at h
    | some item =>
      simp only [ancestorsFuel, hr, Option.bind_eq_bind, Option.some_bind] at h ⊢
      by_cases hp : item.parentId = i
      · rw [if_pos hp] at h ⊢; exact h
      · rw [if_neg hp] at h ⊢
        cases hrest : ancestorsFuel ctx n item.parentId with
        | none => rw [hrest] at h; cases h
        | some rest =>
          rw [hrest] at h
          rw [ih m' item.parentId rest (by omega) hrest]
          exact h

/-- Unfolding the ancestor walk one step away from the parent fixpoint. -/
theorem ancestorsFuel_cons (ctx : Ctx) (n : Nat) (i : ItemId) (it : Item)
    (hr : ctx.resolveItem i = some it) (hp : it.parentId ≠ i) :
    ancestorsFuel ctx (n + 1) i =
      (ancestorsFuel ctx n it.parentId).map (fun l => i :: l) := by
  have hid : it.id = i := resolveItemFallible_id hr
  simp only [ancestorsFuel, hr, Option.bind_eq_bind, Option.some_bind, if_neg hp]
  cases hrest : ancestorsFuel ctx n it.parentId <;> simp [hid]

/-- The ancestor walk stops with the empty sequence at a parent fixpoint. -/
theorem ancestorsFuel_root (ctx : Ctx) (n : Nat) (i : ItemId) (it : Item)
    (hr : ctx.resolveItem i = some it) (hp : it.parentId = i) :
    ancestorsFuel ctx (n + 1) i = some [] := by
  simp only [ancestorsFuel, hr, Option.bind_eq_bind, Option.some_bind, if_pos hp]

/-- When the root module is its own parent, the root's id is never emitted
by an ancestor walk. -/
theorem ancestorsFuel_not_mem_root (ctx : Ctx) (rootIt : Item)
    (hr : ctx.resolveItem ctx.rootModule = some rootIt)
    (hp : rootIt.parentId = ctx.rootModule) :
    ∀ n i l, ancestorsFuel ctx n i = some l → ctx.rootModule ∉ l := by
  intro n
  induction n with
  | zero => intro i l h; cases h
  | succ n ih =>
    intro i l h
    cases hri : ctx.resolveItem i with
    | none => simp [ancestorsFuel, hri] at h
    | some it =>
      simp only [ancestorsFuel, hri, Option.bind_eq_bind, Option.some_bind] at h
      by_cases hpi : it.parentId = i
      · rw [if_pos hpi] at h
        cases h
        simp
      · rw [if_neg hpi] at h
        cases hrest : ancestorsFuel ctx n it.parentId with
        | none => rw [hrest] at h; cases h
        | some rest =>
          rw [hrest] at h
          simp only [Option.some_bind] at h
          cases h
          have hid : it.id = i := resolveItemFallible_id hri
          intro hmem
          rcases List.mem_cons.mp hmem with heq | hmem'
          · rw [hid] at heq
            have hri' := hri
            rw [← heq] at hri'
            rw [hr] at hri'
            have hit : rootIt = it := Option.some.inj hri'
            apply hpi
            rw [← hit, hp, heq]
          · exact ih it.parentId rest hrest hmem'

/-- On an item table whose parent links strictly decrease a rank (except at
fixpoints) and always resolve, the ancestor walk of any resolvable item
succeeds with fuel one past the item's rank. -/
theorem ancestorsFuel_total (ctx : Ctx) (rk : ItemId → Nat)
    (hrk : ∀ it ∈ ctx.items, it.parentId = it.id ∨ rk it.parentId < rk it.id)
    (hres : ∀ it ∈ ctx.items, it.parentId = it.id ∨
      (ctx.resolveItem it.parentId).isSome = true) :
    ∀ N i it, rk i < N → ctx.resolveItem i = some it →
      ∃ l, ancestorsFuel ctx (rk i + 1) i = some l := by
  intro N
  induction N with
  | zero => intro i it h; omega
  | succ N ih =>
    intro i it hN hr
    have hid : it.id = i := resolveItemFallible_id hr
    have hmem : it ∈ ctx.items := resolveItemFallible_mem hr
    by_cases hp : it.parentId = i
    · exact ⟨[], ancestorsFuel_root ctx (rk i) i it hr hp⟩
    · have hlt : rk it.parentId < rk i := by
        rcases hrk it hmem with h1 | h2
        · rw [hid] at h1; exact absurd h1 hp
        · rw [hid] at h2; exact h2
      have hps : (ctx.resolveItem it.parentId).isSome = true := by
        rcases hres it hmem with h1 | h2
        · rw [hid] at h1; exact absurd h1 hp
        · exact h2
      obtain ⟨pit, hpit⟩ := Option.isSome_iff_exists.mp hps
      obtain ⟨l, hl⟩ := ih it.parentId pit (by omega) hpit
      have hl' : ancestorsFuel ctx (rk i) it.parentId = some l :=
        ancestorsFuel_mono ctx (rk it.parentId + 1) (rk i) it.parentId l
          (by omega) hl
      refine ⟨i :: l, ?_⟩
      rw [ancestorsFuel_cons ctx (rk i) i it hr hp, hl']
      rfl

/-- When the walk's starting item carries no `use_instead_of` annotation,
the `name_target` loop body coincides with the pure alias chase. -/
theorem nameTargetFuel_no_ann (ctx : Ctx) (self : Item)
    (h : self.anns.useInsteadOf.isSome = false) :
    ∀ n it, nameTargetFuel ctx self n it = followAliases ctx n it := by
  intro n
  induction n with
  | zero => intro it; rfl
  | succ n ih =>
    intro it
    obtain ⟨iid, ipar, icom, ianns, ikind⟩ := it
    simp only [nameTargetFuel, followAliases, h, Bool.false_eq_true, if_false]
    cases ikind
    · rfl
    · rename_i ty
      obtain ⟨tn, tl, tk, tc⟩ := ty
      cases tk <;>
        first
          | rfl
          | (rename_i inner
             cases hres : ctx.resolveItem inner <;> simp [ih])
    · rfl
    · rfl

/-- Returning a cached canonical name leaves the caches untouched. -/
theorem canonicalNameF_cached (ctx : Ctx) (fuel : Nat) (st : Caches)
    (item : Item) (s : String) (h : st.nameCache.lookup item.id = some s) :
    canonicalNameF ctx fuel st item = some (s, st) := by
  unfold canonicalNameF
  rw [h]

/-- With namespaces disabled, a true answer from the `is_toplevel` loop
means the parent chain reaches the root crossing only modules. -/
theorem isToplevelLoop_reaches (ctx : Ctx)
    (hdis : ctx.options.enableCxxNamespaces = false) :
    ∀ n p, isToplevelLoop ctx n p = some true → ReachesRootViaModules ctx p := by
  intro n
  induction n with
  | zero => intro p h; cases h
  | succ n ih =>
    intro p h
    cases hr : ctx.resolveItemFallible p with
    | none => simp [isToplevelLoop, hr] at h
    | some pit =>
      simp only [isToplevelLoop, hr] at h
      by_cases hroot : pit.id = ctx.rootModule
      · exact .atRoot p pit hr hroot
      · rw [if_neg hroot] at h
        by_cases hmod : pit.kind.isModule = true
        · rw [hdis] at h
          simp only [hmod, Bool.not_true, Bool.false_or, Bool.false_eq_true,
            if_false] at h
          exact .step p pit hr hroot hmod (ih _ h)
        · rw [hdis] at h
          simp only [Bool.not_eq_true] at hmod
          simp [hmod] at h

/-- Conversely, a module-only chain to the root makes the `is_toplevel`
loop answer true for some fuel. -/
theorem reaches_isToplevelLoop (ctx : Ctx)
    (hdis : ctx.options.enableCxxNamespaces = false) :
    ∀ p, ReachesRootViaModules ctx p →
      ∃ n, isToplevelLoop ctx n p = some true := by
  intro p h
  induction h with
  | atRoot p pit hr hroot => exact ⟨1, by simp [isToplevelLoop, hr, hroot]⟩
  | step p pit hr hroot hmod hrec ih =>
    obtain ⟨n, hn⟩ := ih
    refine ⟨n + 1, ?_⟩
    simp [isToplevelLoop, hr, hroot, hdis, hmod, hn]

/-- The boolean filter `canonical_path` applies is the survival rule
`keptInPath`. -/
theorem keptInPath_eq (ctx : Ctx) (tid : ItemId) (it : Item) :
    (it.id == tid ||
     (match it.kind with
      | .Module m => !m.isInline || ctx.options.conservativeInlineNamespaces
      | _ => false)) = keptInPath ctx tid it := by
  unfold keptInPath
  cases hk : it.kind <;> simp [Bool.or_assoc]

/-- Naming the surviving chain elements fuses with filtering them. -/
theorem mapPathNames_filter (ctx : Ctx) (fuel : Nat) (tid : ItemId) :
    ∀ l st, mapPathNames ctx fuel st (l.filter (fun it => keptInPath ctx tid it)) =
      filterPathNames ctx fuel tid st l := by
  intro l
  induction l with
  | nil => intro st; rfl
  | cons it rest ih =>
    intro st
    rw [List.filter_cons]
    by_cases hk : keptInPath ctx tid it
    · simp only [hk, if_true, mapPathNames, filterPathNames, ih]
    · simp only [hk, Bool.false_eq_true, if_false, filterPathNames, ih]

/-- Re-entering the Debug query on an item whose flag is set returns the
optimistic answer immediately, with the caches untouched. -/
theorem canDeriveDebugI_reentry (ctx : Ctx) (lo : LayoutIR → Bool) (n : Nat)
    (st : Caches) (flags : List ItemId) (id : ItemId) (it : Item)
    (hr : ctx.resolveItem id = some it) (hf : flags.contains id = true) :
    canDeriveDebugI ctx lo (n + 1) st flags id = some (true, st) := by
  have hf' : id ∈ flags := by simpa using hf
  simp [canDeriveDebugI, hr, hf']

/-- Lookup after `add_item` sees the new item first. -/
theorem resolve_addItem (ctx : Ctx) (it : Item) (i : ItemId) :
    (ctx.addItem it).resolveItemFallible i =
      if it.id == i then some it else ctx.resolveItemFallible i := by
  simp only [Ctx.addItem, Ctx.resolveItemFallible, List.find?]
  cases h : (it.id == i) <;> simp [h]

/-- On the cyclic graph `ctxCyc`, the Default query's computation repeats
itself every two fuel levels. -/
theorem cycDefault_step (m : Nat) :
    canDeriveDefaultI ctxCyc (fun _ => false) (m + 4) Caches.init 1 =
    canDeriveDefaultI ctxCyc (fun _ => false) (m + 2) Caches.init 1 := rfl

/-- On the cyclic graph `ctxCyc`, the Default query never produces an
answer, whatever the fuel: the recursion does not terminate. -/
theorem cycDefault_none :
    ∀ n, canDeriveDefaultI ctxCyc (fun _ => false) n Caches.init 1 = none := by
  intro n
  induction n using Nat.strong_induction_on with
  | _ n ih =>
    match n with
    | 0 => rfl
    | 1 => rfl
    | 2 => rfl
    | 3 => rfl
    | m + 4 => rw [cycDefault_step]; exact ih (m + 2) (by omega)

/-- C1: once `collected_typerefs()` is true, `from_ty_or_ref_with_id`
performs a full parse and never creates an `UnresolvedTypeRef` item
(assuming, as the spec states for the missing `ty.rs` decoder, that the
full parse itself adds none): every item of the resulting context was
either already present or is not an unresolved placeholder, and when the
full parse fails, an opaque type item is created under the supplied id,
parented to the root module, and that id is returned. -/
theorem C1_from_ty_or_ref_with_id_after_collection
    (hooks : ParseHooks) (pid : ItemId) (ty : CType) (loc : Cursor)
    (parent : Option ItemId) (ctx : Ctx)
    (hcol : ctx.collectedTyperefs = true)
    (hparse : ∀ r ctx', hooks.fromTyWithId pid ty loc parent ctx = .ok (r, ctx') →
      ∀ i it, ctx'.resolveItemFallible i = some it →
        ctx.resolveItemFallible i = some it ∨ it.isUnresolvedTypeRef = false) :
    (∀ i it,
       (fromTyOrRefWithId hooks pid ty loc parent ctx).2.resolveItemFallible i =
         some it →
       ctx.resolveItemFallible i = some it ∨ it.isUnresolvedTypeRef = false) ∧
    (∀ e, hooks.fromTyWithId pid ty loc parent ctx = .error e →
       (fromTyOrRefWithId hooks pid ty loc parent ctx).1 = pid ∧
       (fromTyOrRefWithId hooks pid ty loc parent ctx).2.resolveItemFallible pid =
         some (Item.new pid none none ctx.rootModule
           (ItemKind.Type (opaqueFromClangTy ty)))) := by
  unfold fromTyOrRefWithId
  rw [hcol]
  simp only [if_true]
  cases hp : hooks.fromTyWithId pid ty loc parent ctx with
  | ok r =>
    obtain ⟨rid, ctx'⟩ := r
    constructor
    · intro i it h
      exact hparse rid ctx' hp i it h
    · intro e he
      cases he
  | error e' =>
    unfold newOpaqueType
    constructor
    · intro i it h
      rw [resolve_addItem] at h
      by_cases hid : ((Item.new pid none none ctx.rootModule
          (ItemKind.Type (opaqueFromClangTy ty))).id == i)
      · rw [if_pos hid] at h
        cases h
        right
        rfl
      · rw [if_neg hid] at h
        left
        exact h
    · intro e he
      refine ⟨rfl, ?_⟩
      rw [resolve_addItem]
      simp [Item.new]

/-- C1 witness: with hooks whose full parse always fails and a context that
has collected its typerefs, the call returns the supplied id 7 and the
resulting context holds an opaque type item under id 7 parented to the
root module. -/
theorem C1_from_ty_or_ref_witness :
    (fromTyOrRefWithId failingHooks 7 cty0 cur0 none ctxCollected).1 = 7 ∧
    (fromTyOrRefWithId failingHooks 7 cty0 cur0 none
        ctxCollected).2.resolveItemFallible 7 =
      some (Item.new 7 none none ctxCollected.rootModule
        (ItemKind.Type (opaqueFromClangTy cty0))) := by
  have h := C1_from_ty_or_ref_with_id_after_collection failingHooks 7 cty0 cur0
    none ctxCollected rfl (fun r ctx' hok => by simp [failingHooks] at hok)
  exact h.2 ParseError.Continue rfl

/-- C2 counterexample: on the two-item cyclic alias graph `ctxCyc` (both
derive options on, nothing opaque), the Default query produces no answer at
any fuel — the recursion does not terminate, let alone return false on
re-entry — while the flag-guarded Debug query terminates with `true` on
the very same graph. -/
theorem C2_default_derive_cycle_counterexample :
    (∀ n, canDeriveDefaultI ctxCyc (fun _ => false) n Caches.init 1 = none) ∧
    canDeriveDebugI ctxCyc (fun _ => true) 10 Caches.init [] 1 =
      some (true, Caches.init) :=
  ⟨cycDefault_none, rfl⟩

/-- C2 amended: `can_derive_debug` is guarded by a per-item re-entrance
flag — re-entering a flagged item returns the optimistic answer `true`
immediately — but `can_derive_default` consults no flag at all (the `Item`
struct only has debug and copy cycle cells), so on a cyclic type graph the
Default query does not terminate while the Debug query does. -/
theorem C2_default_derive_unguarded :
    (∀ ctx lo n st flags id it, ctx.resolveItem id = some it →
       flags.contains id = true →
       canDeriveDebugI ctx lo (n + 1) st flags id = some (true, st)) ∧
    (∀ n, canDeriveDefaultI ctxCyc (fun _ => false) n Caches.init 1 = none) ∧
    canDeriveDebugI ctxCyc (fun _ => true) 10 Caches.init [] 1 =
      some (true, Caches.init) :=
  ⟨fun ctx lo n st flags id it hr hf =>
      canDeriveDebugI_reentry ctx lo n st flags id it hr hf,
    cycDefault_none, rfl⟩

/-- C2 witness: re-entering the Debug query on item 1 of `ctxCyc` while its
flag is set returns `true` immediately. -/
theorem C2_debug_reentry_witness :
    canDeriveDebugI ctxCyc (fun _ => true) 5 Caches.init [1] 1 =
      some (true, Caches.init) :=
  C2_default_derive_unguarded.1 ctxCyc (fun _ => true) 4 Caches.init [1] 1
    (aliasItem 1 0 2 "A") rfl rfl

/-- C3 counterexample: in `ctxAnnChain`, item 1 is a plain resolved
reference to item 2, which carries a `use_instead_of` annotation and
refers on to item 3; the claim says the walk stops at item 2, but
`name_target` walks through it and returns item 3. -/
theorem C3_intermediate_annotation_counterexample :
    nameTarget ctxAnnChain 10 (refItem 1 0 2 Annotations.default) = some 3 ∧
    (ctxAnnChain.resolveItem 2).map (fun it => it.anns.useInsteadOf.isSome) =
      some true ∧
    (3 : ItemId) ≠ 2 :=
  ⟨rfl, rfl, by decide⟩

/-- C3 amended: `name_target` consults only the annotations of the item the
walk started from — if that item carries `use_instead_of` the walk returns
its id immediately, and otherwise it is the pure alias chase through
`ResolvedTypeRef` and `TemplateInstantiation` links to the first non-alias
item, ignoring intermediate items' annotations. -/
theorem C3_name_target_start_item_only (ctx : Ctx) (fuel : Nat) (item : Item) :
    nameTarget ctx (fuel + 1) item =
      if item.anns.useInsteadOf.isSome then some item.id
      else followAliases ctx (fuel + 1) item := by
  by_cases h : item.anns.useInsteadOf.isSome = true
  · rw [if_pos h]
    unfold nameTarget
    simp only [nameTargetFuel, h, if_true]
  · have h' : item.anns.useInsteadOf.isSome = false := by simpa using h
    rw [if_neg (by simp [h'])]
    unfold nameTarget
    exact nameTargetFuel_no_ann ctx item h' (fuel + 1) item

/-- C4 counterexample: with `enable_cxx_namespaces` on, item 2 sits in the
namespace module 1 directly under the root, so its parent chain reaches
the root crossing only a module — yet `is_toplevel` answers false, against
the claim that intermediate namespace modules do not prevent
top-levelness. -/
theorem C4_namespace_toplevel_counterexample :
    isToplevelF ctxNsEnabled 10 (varItem 2 1 "v" 0) = some false ∧
    ctxNsEnabled.options.enableCxxNamespaces = true ∧
    (ctxNsEnabled.resolveItemFallible 1).map (fun it => it.kind.isModule) =
      some true ∧
    (ctxNsEnabled.resolveItemFallible 1).map Item.parentId = some 0 :=
  ⟨rfl, rfl, rfl, rfl⟩

/-- C4 amended: with namespaces enabled, every module other than the root
is non-top-level, and a non-module item is top-level iff its direct parent
is the root (any intermediate item, module or not, blocks it); with
namespaces disabled, an item is top-level iff its parent chain reaches the
root crossing only modules. -/
theorem C4_is_toplevel_characterization :
    (∀ ctx fuel item, ctx.options.enableCxxNamespaces = true →
       item.kind.isModule = true → item.id ≠ ctx.rootModule →
       isToplevelF ctx fuel item = some false) ∧
    (∀ ctx n item p, ctx.options.enableCxxNamespaces = true →
       item.kind.isModule = false →
       ctx.resolveItemFallible item.parentId = some p →
       isToplevelF ctx (n + 1) item = some (decide (p.id = ctx.rootModule))) ∧
    (∀ ctx n item, ctx.options.enableCxxNamespaces = false →
       isToplevelF ctx n item = some true →
       ReachesRootViaModules ctx item.parentId) ∧
    (∀ ctx item, ctx.options.enableCxxNamespaces = false →
       ReachesRootViaModules ctx item.parentId →
       ∃ n, isToplevelF ctx n item = some true) := by
  refine ⟨?_, ?_, ?_, ?_⟩
  · intro ctx fuel item he hm hne
    unfold isToplevelF
    rw [if_pos (by simp [he, hm, hne])]
  · intro ctx n item p he hm hp
    unfold isToplevelF
    rw [if_neg (by simp [hm])]
    simp only [isToplevelLoop, hp]
    by_cases hr : p.id = ctx.rootModule
    · simp [hr]
    · simp [hr, he]
  · intro ctx n item hd h
    unfold isToplevelF at h
    rw [if_neg (by simp [hd])] at h
    exact isToplevelLoop_reaches ctx hd n item.parentId h
  · intro ctx item hd h
    obtain ⟨n, hn⟩ := reaches_isToplevelLoop ctx hd item.parentId h
    refine ⟨n, ?_⟩
    unfold isToplevelF
    rw [if_neg (by simp [hd])]
    exact hn

/-- C4 witness: in `ctxNsEnabled`, an item parented to the namespace module
is not top-level, and an item parented directly to the root is. -/
theorem C4_is_toplevel_witness :
    isToplevelF ctxNsEnabled 3 (varItem 2 1 "v" 0) = some false ∧
    isToplevelF ctxNsEnabled 3 (funItem 3 0 "f" 9) = some true := by
  constructor
  · have h := C4_is_toplevel_characterization.2.1 ctxNsEnabled 2
      (varItem 2 1 "v" 0) (nsItem 1 0 "foo" false) rfl rfl rfl
    simpa using h
  · have h := C4_is_toplevel_characterization.2.1 ctxNsEnabled 2
      (funItem 3 0 "f" 9) rootItem rfl rfl rfl
    simpa using h

/-- C5: `canonical_name` is idempotent through its cache — a call that
finds the cache populated returns exactly the cached string with the
caches untouched, and a first call that computes a name stores it, after
which every later call (any fuel) returns that same string unchanged. -/
theorem C5_canonical_name_cache_idempotent :
    (∀ ctx fuel st item s, st.nameCache.lookup item.id = some s →
       canonicalNameF ctx fuel st item = some (s, st)) ∧
    (∀ ctx fuel st item s st', st.nameCache.lookup item.id = none →
       canonicalNameF ctx fuel st item = some (s, st') →
       st'.nameCache.lookup item.id = some s ∧
       ∀ fuel', canonicalNameF ctx fuel' st' item = some (s, st')) := by
  constructor
  · exact fun ctx fuel st item s h => canonicalNameF_cached ctx fuel st item s h
  · intro ctx fuel st item s st' hn h
    unfold canonicalNameF at h
    rw [hn] at h
    dsimp only at h
    cases hr : realCanonicalName ctx fuel
        (ctx.options.enableCxxNamespaces || ctx.options.disableNameNamespacing)
        st item with
    | none => rw [hr] at h; cases h
    | some p =>
      obtain ⟨s1, st1⟩ := p
      rw [hr] at h
      simp only [Option.bind_eq_bind, Option.some_bind, Option.some.injEq,
        Prod.mk.injEq] at h
      obtain ⟨hs, hst⟩ := h
      refine ⟨?_, ?_⟩
      · rw [← hst, ← hs]
        simp [List.lookup]
      · intro fuel'
        have hc := canonicalNameF_cached ctx fuel'
          { st1 with nameCache := (item.id, s1) :: st1.nameCache } item s1
          (by simp [List.lookup])
        rw [← hst, ← hs]
        exact hc

/-- C5 witness: in `ctxNest`, the first call on item 2 computes and caches
`Foo_Bar`, and a later call with different fuel returns the cached value
with the caches unchanged. -/
theorem C5_canonical_name_witness :
    canonicalNameF ctxNest 10 Caches.init (compItem 2 1 "Bar") =
      some ("Foo_Bar", { Caches.init with nameCache := [(2, "Foo_Bar")] }) ∧
    ({ Caches.init with nameCache := [(2, "Foo_Bar")] } : Caches).nameCache.lookup 2 =
      some "Foo_Bar" ∧
    canonicalNameF ctxNest 99 { Caches.init with nameCache := [(2, "Foo_Bar")] }
      (compItem 2 1 "Bar") =
      some ("Foo_Bar", { Caches.init with nameCache := [(2, "Foo_Bar")] }) := by
  have h := C5_canonical_name_cache_idempotent.2 ctxNest 10 Caches.init
    (compItem 2 1 "Bar") "Foo_Bar"
    { Caches.init with nameCache := [(2, "Foo_Bar")] } rfl rfl
  exact ⟨rfl, h.1, h.2 99⟩

/-- C6 counterexample: for the nested type `Bar` inside `Foo` in `ctxNest`,
the code's path is `[root, Foo_Bar]` — the non-module ancestor `Foo` is
removed from the chain — while the claim's reading (only inline namespaces
removed) yields `[root, Foo, Foo_Bar]`. -/
theorem C6_canonical_path_counterexample :
    canonicalPathF ctxNest 10 Caches.init (compItem 2 1 "Bar") =
      some (["root", "Foo_Bar"], Caches.init) ∧
    canonicalPathClaim ctxNest 10 Caches.init (compItem 2 1 "Bar") =
      some (["root", "Foo", "Foo_Bar"], Caches.init) ∧
    (["root", "Foo_Bar"] : List String) ≠ ["root", "Foo", "Foo_Bar"] :=
  ⟨rfl, rfl, by decide⟩

/-- C6 amended: `canonical_path` equals the root-first path in which the
ancestors surviving the filter are the target itself and the modules that
are not inline namespaces (inline namespaces survive only under
`conservative_inline_namespaces`); every other ancestor — in particular a
non-module enclosing type — is removed, and each survivor contributes its
`name_target`'s within-namespaces canonical name; with `use_instead_of(p)`
the path is the root's name followed by `p`. -/
theorem C6_canonical_path_characterization (ctx : Ctx) (fuel : Nat)
    (st : Caches) (item : Item) :
    canonicalPathF ctx fuel st item = canonicalPathAmended ctx fuel st item := by
  unfold canonicalPathF canonicalPathAmended
  cases hann : item.anns.useInsteadOf with
  | some path => rfl
  | none =>
    cases h1 : nameTarget ctx fuel item with
    | none => rfl
    | some tid =>
      simp only [Option.bind_eq_bind, Option.some_bind]
      cases h2 : ctx.resolveItem tid with
      | none => rfl
      | some target =>
        simp only [Option.some_bind]
        cases h3 : ancestorsFuel ctx fuel target.id with
        | none => rfl
        | some ancs =>
          simp only [Option.some_bind]
          cases h4 : (ancs ++ [ctx.rootModule]).mapM
              (fun i => ctx.resolveItem i) with
          | none => rfl
          | some chainItems =>
            simp only [Option.some_bind]
            rw [List.filter_congr (fun it _ => keptInPath_eq ctx target.id it)]
            rw [mapPathNames_filter]

/-- C7 counterexample: tracing the root module of `ctxNest` — a module with
child 1 — emits no edges at all, so no module-to-child edge is exposed
under any edge kind, against the claim. -/
theorem C7_module_trace_counterexample :
    traceItemF ctxNest emptyTyTrace 10 Caches.init rootItem =
      some ([], Caches.init) ∧
    rootItem.kind = ItemKind.Module
      { name := some "root", isInline := false, children := [1] } ∧
    ¬ ∃ k, ((1 : ItemId), k) ∈ ([] : List (ItemId × EdgeKind)) := by
  refine ⟨rfl, rfl, ?_⟩
  rintro ⟨k, hk⟩
  cases hk

/-- C7 amended: the default whitelisting trace does not visit
module-to-child edges, and no distinct edge kind exposes them either — a
successful trace of any module item emits no edges whatsoever (the
distinct kind is left as a TODO in the source). -/
theorem C7_module_trace_no_edges (ctx : Ctx)
    (tyTrace : Ctx → TypeIR → Item → List (ItemId × EdgeKind))
    (fuel : Nat) (st : Caches) (item : Item) (m : ModuleIR)
    (es : List (ItemId × EdgeKind)) (st' : Caches)
    (hm : item.kind = ItemKind.Module m)
    (h : traceItemF ctx tyTrace fuel st item = some (es, st')) : es = [] := by
  unfold traceItemF at h
  cases hh : isHiddenF ctx fuel st item with
  | none => rw [hh] at h; cases h
  | some p =>
    obtain ⟨hidden, st1⟩ := p
    rw [hh] at h
    simp only [Option.bind_eq_bind, Option.some_bind] at h
    cases hidden
    · rw [hm] at h
      simp only [Bool.false_eq_true, if_false] at h
      simp only [Option.some.injEq, Prod.mk.injEq] at h
      exact h.1.symm
    · simp only [if_true] at h
      simp only [Option.some.injEq, Prod.mk.injEq] at h
      exact h.1.symm

/-- C7 witness: the trace of the root module of `ctxNest` indeed emits the
empty edge list. -/
theorem C7_module_trace_witness : ([] : List (ItemId × EdgeKind)) = [] :=
  C7_module_trace_no_edges ctxNest emptyTyTrace 10 Caches.init rootItem
    { name := some "root", isInline := false, children := [1] }
    [] Caches.init rfl rfl

/-- C8 counterexample: in `ctxDangling`, item 1's parent id 2 resolves to
nothing; the walk aborts (`resolve_item` panics, modelled as `none`) while
the claim's wording — the fallible lookup ends the sequence — would yield
the one-element sequence `[1]`. -/
theorem C8_dangling_parent_counterexample :
    ancestorsFuel ctxDangling 10 1 = none ∧
    ancestorsClaimFuel ctxDangling 10 1 = some [1] :=
  ⟨rfl, rfl⟩

/-- C8 amended: on an item table whose parent links strictly decrease a
rank (except at self-parent fixpoints, where the walk stops) and always
resolve, `ancestors` is finite — it succeeds with fuel one past the
starting item's rank; but a dangling id along the walk is a fatal
`resolve_item` lookup that aborts the iteration rather than ending the
sequence. -/
theorem C8_ancestors_termination :
    (∀ ctx (rk : ItemId → Nat),
       (∀ it ∈ ctx.items, it.parentId = it.id ∨ rk it.parentId < rk it.id) →
       (∀ it ∈ ctx.items, it.parentId = it.id ∨
          (ctx.resolveItem it.parentId).isSome = true) →
       ∀ i it, ctx.resolveItem i = some it →
         ∃ l, ancestorsFuel ctx (rk i + 1) i = some l) ∧
    (∀ ctx n (i : ItemId), ctx.resolveItem i = none →
       ancestorsFuel ctx (n + 1) i = none) := by
  constructor
  · intro ctx rk hrk hres i it hr
    exact ancestorsFuel_total ctx rk hrk hres (rk i + 1) i it (by omega) hr
  · intro ctx n i hr
    simp [ancestorsFuel, hr]

/-- C8 witness: in `ctxNest` (ranked by the item id itself) the walk from
item 2 terminates, and in `ctxDangling` a walk starting at the unknown id
2 aborts. -/
theorem C8_ancestors_witness :
    (∃ l, ancestorsFuel ctxNest ((fun i => i) 2 + 1) 2 = some l) ∧
    ancestorsFuel ctxDangling 6 2 = none := by
  constructor
  · exact C8_ancestors_termination.1 ctxNest (fun i => i) (by decide)
      (by decide) 2 (compItem 2 1 "Bar") rfl
  · exact C8_ancestors_termination.2 ctxDangling 5 2 rfl

/-- C9: in the record `C` of `ctxOverload` with constructors `C()`, `C(int)`
and methods `m()`, `m(int)`, the base names are `m`, `m1`, `C`, `C1`, the
overload indices are 0, 1, 0, 1, and in general a function's base name
carries the decimal index exactly when its overload index is positive. -/
theorem C9_overload_suffixes :
    baseNameF ctxOverload Caches.init (funItem 2 1 "m" 2) =
      some ("m", Caches.init) ∧
    baseNameF ctxOverload Caches.init (funItem 3 1 "m" 3) =
      some ("m1", Caches.init) ∧
    baseNameF ctxOverload Caches.init (funItem 4 1 "C" 4) =
      some ("C", Caches.init) ∧
    baseNameF ctxOverload Caches.init (funItem 5 1 "C" 5) =
      some ("C1", Caches.init) ∧
    overloadIndex ctxOverload (funItem 2 1 "m" 2) = some 0 ∧
    overloadIndex ctxOverload (funItem 3 1 "m" 3) = some 1 ∧
    overloadIndex ctxOverload (funItem 4 1 "C" 4) = some 0 ∧
    overloadIndex ctxOverload (funItem 5 1 "C" 5) = some 1 ∧
    (∀ ctx st item f idx, item.kind = ItemKind.Function f →
       item.anns.useInsteadOf = none →
       overloadIndex ctx item = some idx →
       baseNameF ctx st item =
         some ((if idx > 0 then f.name ++ toString idx else f.name), st)) := by
  refine ⟨rfl, rfl, rfl, rfl, rfl, rfl, rfl, rfl, ?_⟩
  intro ctx st item f idx hf hann hidx
  unfold baseNameF
  rw [hann, hf, hidx]
  dsimp only
  by_cases h : idx > 0 <;> simp [h]

/-- C9 witness: applying the general suffix rule to the second constructor
of `ctxOverload` yields the suffixed name. -/
theorem C9_overload_suffix_witness :
    baseNameF ctxOverload Caches.init (funItem 5 1 "C" 5) =
      some ((if (1 : Nat) > 0 then "C" ++ toString (1 : Nat) else "C"),
        Caches.init) :=
  (C9_overload_suffixes.2.2.2.2.2.2.2.2) ctxOverload Caches.init
    (funItem 5 1 "C" 5) { name := "C", signature := 5 } 1 rfl rfl rfl

/-- C10: for a non-root item (parent differs from the item), `ancestors`
begins with the item's own id followed by the walk from its parent; for
the root module (its own parent), `ancestors` is empty; and the root's id
never appears in any successful walk. -/
theorem C10_ancestors_shape :
    (∀ ctx n i it, Ctx.resolveItem ctx i = some it → it.parentId ≠ i →
       ancestorsFuel ctx (n + 1) i =
         (ancestorsFuel ctx n it.parentId).map (fun l => i :: l)) ∧
    (∀ ctx n it, Ctx.resolveItem ctx ctx.rootModule = some it →
       it.parentId = ctx.rootModule →
       ancestorsFuel ctx (n + 1) ctx.rootModule = some []) ∧
    (∀ ctx rootIt n i l, Ctx.resolveItem ctx ctx.rootModule = some rootIt →
       rootIt.parentId = ctx.rootModule →
       ancestorsFuel ctx n i = some l → ctx.rootModule ∉ l) := by
  refine ⟨?_, ?_, ?_⟩
  · intro ctx n i it hr hp
    exact ancestorsFuel_cons ctx n i it hr hp
  · intro ctx n it hr hp
    exact ancestorsFuel_root ctx n ctx.rootModule it hr hp
  · intro ctx rootIt n i l hr hp h
    exact ancestorsFuel_not_mem_root ctx rootIt hr hp n i l h

/-- C10 witness: in `ctxNest`, the walk from item 2 is `2` consed onto the
walk from its parent, the walk from the root is empty, and the root id 0
is absent from the full ancestor list `[2, 1]`. -/
theorem C10_ancestors_shape_witness :
    ancestorsFuel ctxNest 3 2 =
      (ancestorsFuel ctxNest 2 (compItem 2 1 "Bar").parentId).map
        (fun l => 2 :: l) ∧
    ancestorsFuel ctxNest 5 ctxNest.rootModule = some [] ∧
    ctxNest.rootModule ∉ [2, 1] := by
  refine ⟨?_, ?_, ?_⟩
  · exact C10_ancestors_shape.1 ctxNest 2 2 (compItem 2 1 "Bar") rfl (by decide)
  · exact C10_ancestors_shape.2.1 ctxNest 4 rootItem rfl rfl
  · exact C10_ancestors_shape.2.2 ctxNest rootItem 3 2 [2, 1] rfl rfl rfl
